import Mathlib

/-!
Verification of the pypage templating preprocessor.

The tag scanner (`process_python_tags`), the execution engine
(`execPythonCode`) and the document assembler (`pypage`) are embedded
from `pypage.py`.  Documents are lists of lines, each line a list of
characters.  The host language's dynamic-evaluation facility (`exec`)
is an external collaborator of the program: embedded scripts are
represented by small `PyStmt` programs, and a render takes a `decode`
function assigning to each scanned script text its program, mirroring
the host's parse step.  Everything else is translated directly from
the source.
-/

/-- Strings from the source are modelled as lists of characters. -/
abbrev Str := List Char

/-- Character list of a string literal. -/
def chars (s : String) : Str := s.toList

/-- The whitespace class matched by the regex escape used in the
delimiter patterns of the source. -/
def isPySpace (c : Char) : Bool :=
  c = ' ' || c = '\t' || c = '\n' || c = '\r' || c = '\x0b' || c = '\x0c'

/-- The block opening delimiter of the source. -/
def multiline_delimiter_open : Str := chars "<python>"

/-- The block closing delimiter of the source. -/
def multiline_delimiter_close : Str := chars "</python>"

/-- The inline opening delimiter of the source. -/
def inline_delimiter_open : Str := chars "<py>"

/-- The inline closing delimiter of the source. -/
def inline_delimiter_close : Str := chars "</py>"

/-- Index of the first occurrence of `pat` as a contiguous substring:
the semantics of a regex `search` for a literal pattern, returning the
match's start. -/
def findSub (pat : Str) : Str → Option Nat
  | [] => if pat.isPrefixOf ([] : Str) then some 0 else none
  | c :: rest =>
    if pat.isPrefixOf (c :: rest) then some 0
    else (findSub pat rest).map (fun k => k + 1)

/-- Whether the anchored pattern of `re_delimiter_open` (optional
whitespace, the block opening delimiter, optional whitespace, then a
newline) matches a prefix of the line.  Since the delimiter starts with
a non-whitespace character, the leading whitespace consumed by the
pattern is exactly the line's longest whitespace prefix, and the
trailing part matches exactly when the whitespace run following the
delimiter reaches a newline. -/
def isBlockOpen (line : Str) : Bool :=
  multiline_delimiter_open.isPrefixOf (line.dropWhile isPySpace) &&
    (((line.dropWhile isPySpace).drop multiline_delimiter_open.length).takeWhile
      isPySpace).contains '\n'

/-- Whether the anchored pattern of `re_delimiter_close` matches a
prefix of the line; same shape as `isBlockOpen` with the closing
delimiter. -/
def isBlockClose (line : Str) : Bool :=
  multiline_delimiter_close.isPrefixOf (line.dropWhile isPySpace) &&
    (((line.dropWhile isPySpace).drop multiline_delimiter_close.length).takeWhile
      isPySpace).contains '\n'

/-- The source's `find_indentation_level`: search the opening line for
the bare opening delimiter and return the match's start column.  The
source asserts that the search succeeded; `none` models the assertion
failing. -/
def find_indentation_level (line : Str) : Option Nat :=
  findSub multiline_delimiter_open line

/-- How a line is appended to the accumulator in code mode: its first
`id_level` columns are stripped, and a line no longer than `id_level`
contributes a bare newline instead. -/
def stripLine (id_level : Nat) (line : Str) : Str :=
  if id_level < line.length then line.drop id_level else ['\n']

/-- A scanned segment: either a plain string or a `PythonCode` object
(script text plus recorded indentation level). -/
inductive Segment where
  | lit (s : Str)
  | code (s : Str) (id_level : Nat)
deriving DecidableEq

/-- The two collect modes of the scanner. -/
inductive Mode where
  | plain
  | code
deriving DecidableEq

/-- The scanner's loop state: emitted segments, the accumulator, the
pending indentation level and the current mode. -/
structure ScanState where
  result : List Segment
  collect : Str
  id_level : Nat
  mode : Mode
deriving DecidableEq

/-- One iteration of the scanner loop on one line, following the
branch order of the source: block open, block close, inline pair,
then mode-directed accumulation.  `none` models the assertion in
`find_indentation_level` failing. -/
def scanLine (st : ScanState) (line : Str) : Option ScanState :=
  if isBlockOpen line = true then
    match find_indentation_level line with
    | some lvl => some ⟨st.result ++ [Segment.lit st.collect], [], lvl, Mode.code⟩
    | none => none
  else if isBlockClose line = true then
    some ⟨st.result ++ [Segment.code st.collect st.id_level], ['\n'], 0, Mode.plain⟩
  else
    match findSub inline_delimiter_open line, findSub inline_delimiter_close line with
    | some i, some j =>
      some ⟨st.result ++
              [Segment.lit (st.collect ++ line.take i),
               Segment.code ((line.drop (i + 4)).take (j - (i + 4))) 0],
            line.drop (j + 5), st.id_level, st.mode⟩
    | some _, none =>
      match st.mode with
      | Mode.plain => some { st with collect := st.collect ++ line }
      | Mode.code => some { st with collect := st.collect ++ stripLine st.id_level line }
    | none, _ =>
      match st.mode with
      | Mode.plain => some { st with collect := st.collect ++ line }
      | Mode.code => some { st with collect := st.collect ++ stripLine st.id_level line }

/-- The scanner loop over the remaining lines. -/
def scanLines : List Str → ScanState → Option ScanState
  | [], st => some st
  | l :: ls, st => (scanLine st l).bind (scanLines ls)

/-- The source's `process_python_tags`: run the loop from the initial
state and flush the final accumulator as a last plain segment. -/
def process_python_tags (lines : List Str) : Option (List Segment) :=
  (scanLines lines ⟨[], [], 0, Mode.plain⟩).map
    (fun st => st.result ++ [Segment.lit st.collect])

/-- A line on which the scanner takes no tag branch: it does not match
the block-open or block-close pattern and does not contain an inline
open/close delimiter pair. -/
def plainLine (line : Str) : Bool :=
  !(isBlockOpen line) && !(isBlockClose line) &&
    !((findSub inline_delimiter_open line).isSome &&
      (findSub inline_delimiter_close line).isSome)

/-- A value of the modelled script fragment: a string or an integer. -/
inductive Value where
  | str (s : Str)
  | int (n : Int)
deriving DecidableEq

/-- The string conversion applied by the generated write primitive to
its argument. -/
def pyStr : Value → Str
  | Value.str s => s
  | Value.int n => chars (toString n)

/-- An expression of the modelled script fragment. -/
inductive Expr where
  | lit (v : Value)
  | var (x : String)
deriving DecidableEq

/-- Look a name up in the shared namespace. -/
def evalExpr (env : List (String × Value)) : Expr → Except String Value
  | Expr.lit v => Except.ok v
  | Expr.var x =>
    match env.lookup x with
    | some v => Except.ok v
    | none => Except.error ("NameError: " ++ x)

/-- A statement of the modelled script fragment.  `setSec i` is the
generated section marker (the assignment to the section cursor emitted
before each segment's code); the other constructors stand for the
script forms evaluated by the host facility. -/
inductive PyStmt where
  | assign (x : String) (e : Expr)
  | write (e : Expr)
  | seq (a b : PyStmt)
  | forRange (x : String) (n : Nat) (body : PyStmt)
  | raiseExc (msg : String)
  | setSec (i : Nat)
deriving DecidableEq

/-- The evaluation state of the shared program: the module namespace,
the current section cursor, and the per-section output buffers created
by the generated preamble. -/
structure EState where
  env : List (String × Value)
  sec : Nat
  output : List Str
deriving DecidableEq

/-- Run the already-denoted loop body once per iteration with the loop
variable bound to the current index, as the host's range loop does. -/
def loopFrom (x : String) (f : EState → Except String EState) :
    Nat → Nat → EState → Except String EState
  | _, 0, st => Except.ok st
  | k, n + 1, st =>
    (f { st with env := (x, Value.int (Int.ofNat k)) :: st.env }).bind
      (loopFrom x f (k + 1) n)

/-- Evaluation of one statement.  The write case is the generated
primitive: it appends the string form of its argument to the buffer
addressed by the current section cursor, raising an index error if the
cursor is out of range. -/
def execStmt : PyStmt → EState → Except String EState
  | PyStmt.assign x e => fun st =>
    (evalExpr st.env e).map (fun v => { st with env := (x, v) :: st.env })
  | PyStmt.write e => fun st =>
    (evalExpr st.env e).bind (fun v =>
      if st.sec < st.output.length then
        Except.ok
          { st with output := st.output.set st.sec (st.output.getD st.sec [] ++ pyStr v) }
      else Except.error "IndexError")
  | PyStmt.seq a b => fun st => (execStmt a st).bind (execStmt b)
  | PyStmt.forRange x n body => fun st => loopFrom x (execStmt body) 0 n st
  | PyStmt.raiseExc msg => fun _ => Except.error msg
  | PyStmt.setSec i => fun st => Except.ok { st with sec := i }

/-- Evaluation of a statement sequence, stopping at the first raised
error as the host facility does. -/
def execStmts : List PyStmt → EState → Except String EState
  | [], st => Except.ok st
  | s :: rest, st => (execStmt s st).bind (execStmts rest)

/-- The shared program assembled by the engine: each segment's code is
preceded by a marker setting the section cursor to its ordinal, the
ordinals counting up from `i`. -/
def assembleFrom : Nat → List (List PyStmt) → List PyStmt
  | _, [] => []
  | i, p :: ps => PyStmt.setSec i :: (p ++ assembleFrom (i + 1) ps)

/-- Split on newline characters, as the host's split does: the result
always has one more element than the string has newlines, so the empty
string splits to one empty piece. -/
def splitNl : Str → List Str
  | [] => [[]]
  | c :: rest =>
    if c = '\n' then [] :: splitNl rest
    else
      match splitNl rest with
      | [] => [[c]]
      | s :: ss => (c :: s) :: ss

/-- Re-indentation of one captured buffer: prefix every
newline-separated piece with `id_level` spaces and re-join. -/
def reindent (id_level : Nat) (o : Str) : Str :=
  List.intercalate ['\n'] ((splitNl o).map (fun s => List.replicate id_level ' ' ++ s))

/-- The source's `execPythonCode`: build the shared program from the
code objects, evaluate it once from the preamble's initial state
(empty namespace, one empty buffer per code object), and re-indent
each captured buffer with its segment's recorded indentation level.
A raised error propagates unchanged. -/
def execPythonCode (cos : List (List PyStmt × Nat)) : Except String (List Str) :=
  match execStmts (assembleFrom 0 (cos.map Prod.fst)) ⟨[], 0, List.replicate cos.length []⟩ with
  | Except.error e => Except.error e
  | Except.ok st => Except.ok (List.zipWith reindent (cos.map Prod.snd) st.output)

/-- The filter in the source's `pypage`: keep the `PythonCode` segments
in order, pairing each one's decoded program with its recorded
indentation level. -/
def extractCodeObjs (segs : List Segment) (decode : Str → List PyStmt) :
    List (List PyStmt × Nat) :=
  segs.filterMap (fun sg =>
    match sg with
    | Segment.code s lvl => some (decode s, lvl)
    | Segment.lit _ => none)

/-- The assembly loop of the source's `pypage`: walk the segments in
order, copying plain strings and substituting the next captured output
for each code segment, then concatenate.  The engine always produces
exactly one output per code segment, so the iterator never runs dry. -/
def assembleOutput : List Segment → List Str → Str
  | [], _ => []
  | Segment.lit s :: rest, outs => s ++ assembleOutput rest outs
  | Segment.code _ _ :: rest, outs => outs.headD [] ++ assembleOutput rest outs.tail

/-- The source's `pypage` on an already-read document: scan, evaluate
the code segments as one shared program, and reassemble.  A scanner
assertion failure or a raised evaluation error makes the whole render
fail. -/
def pypage (lines : List Str) (decode : Str → List PyStmt) : Except String Str :=
  match process_python_tags lines with
  | none => Except.error "AssertionError"
  | some result =>
    match execPythonCode (extractCodeObjs result decode) with
    | Except.error e => Except.error e
    | Except.ok outs => Except.ok (assembleOutput result outs)

/-- Sequential per-section run of the segments: section `i` runs with
the cursor set to `i`, starting from the state (in particular the
namespace) the previous section ended with. -/
def runSections : Nat → List (List PyStmt) → EState → Except String EState
  | _, [], st => Except.ok st
  | i, p :: ps, st => (execStmts p { st with sec := i }).bind (runSections (i + 1) ps)

/-- The host parse step for the script texts appearing in the concrete
example documents below: each snippet of embedded code is mapped to the
program the host facility would evaluate for it.  Texts outside the
examples decode to the empty program. -/
def decodeEx (s : Str) : List PyStmt :=
  if s = chars "x = \"A\"\n" then [PyStmt.assign "x" (Expr.lit (Value.str (chars "A")))]
  else if s = chars "write(x)" then [PyStmt.write (Expr.var "x")]
  else if s = chars "for i in range(3):\n    write(i)\n" then
    [PyStmt.forRange "i" 3 (PyStmt.write (Expr.var "i"))]
  else if s = chars "raise RuntimeError" then [PyStmt.raiseExc "RuntimeError"]
  else if s = chars "y = 1\n" then [PyStmt.assign "y" (Expr.lit (Value.int 1))]
  else if s = chars "q = 1" then [PyStmt.assign "q" (Expr.lit (Value.int 1))]
  else []

/-- Document with a block defining a variable and a later inline tag
reading it. -/
def docC2 : List Str :=
  [chars "<python>\n", chars "x = \"A\"\n", chars "</python>\n",
   chars "mid\n", chars "say <py>write(x)</py>!\n", chars "tail\n"]

/-- Document with a block tag opening at column 4 containing a range
loop over three writes. -/
def docC3 : List Str :=
  [chars "    <python>\n", chars "    for i in range(3):\n",
   chars "        write(i)\n", chars "    </python>\n"]

/-- Document whose embedded code raises during evaluation. -/
def docC4 : List Str := [chars "a<py>raise RuntimeError</py>b\n"]

/-- Document with a block at column 2 whose script writes nothing. -/
def docC10b : List Str :=
  [chars "A\n", chars "  <python>\n", chars "  y = 1\n", chars "  </python>\n", chars "B\n"]

/-- Document with an inline tag whose script writes nothing. -/
def docC10i : List Str := [chars "c<py>q = 1</py>d\n"]

lemma plainLine_spec (l : Str) (h : plainLine l = true) :
    isBlockOpen l = false ∧ isBlockClose l = false ∧
      (findSub inline_delimiter_open l = none ∨ findSub inline_delimiter_close l = none) := by
  simp only [plainLine, Bool.and_eq_true, Bool.not_eq_true'] at h
  obtain ⟨⟨h1, h2⟩, h3⟩ := h
  refine ⟨h1, h2, ?_⟩
  rcases hop : findSub inline_delimiter_open l with _ | i
  · exact Or.inl rfl
  · rcases hcl : findSub inline_delimiter_close l with _ | j
    · exact Or.inr rfl
    · rw [hop, hcl] at h3
      simp at h3

lemma scanLine_plain_mode (res : List Segment) (col : Str) (lvl : Nat) (l : Str)
    (h : plainLine l = true) :
    scanLine ⟨res, col, lvl, Mode.plain⟩ l = some ⟨res, col ++ l, lvl, Mode.plain⟩ := by
  obtain ⟨h1, h2, h3⟩ := plainLine_spec l h
  rcases hop : findSub inline_delimiter_open l with _ | i <;>
    rcases hcl : findSub inline_delimiter_close l with _ | j <;>
      simp_all [scanLine]

lemma scanLine_code_mode (res : List Segment) (col : Str) (lvl : Nat) (l : Str)
    (h : plainLine l = true) :
    scanLine ⟨res, col, lvl, Mode.code⟩ l = some ⟨res, col ++ stripLine lvl l, lvl, Mode.code⟩ := by
  obtain ⟨h1, h2, h3⟩ := plainLine_spec l h
  rcases hop : findSub inline_delimiter_open l with _ | i <;>
    rcases hcl : findSub inline_delimiter_close l with _ | j <;>
      simp_all [scanLine]

lemma scanLines_plain_acc (ls : List Str) (h : ∀ l ∈ ls, plainLine l = true)
    (res : List Segment) (col : Str) (lvl : Nat) :
    scanLines ls ⟨res, col, lvl, Mode.plain⟩ = some ⟨res, col ++ ls.flatten, lvl, Mode.plain⟩ := by
  induction ls generalizing col with
  | nil => simp [scanLines]
  | cons l ls ih =>
    rw [scanLines, scanLine_plain_mode res col lvl l (h l (by simp))]
    simp only [Option.some_bind]
    rw [ih (fun x hx => h x (List.mem_cons_of_mem _ hx))]
    simp [List.append_assoc]

lemma scanLines_code_acc (ls : List Str) (h : ∀ l ∈ ls, plainLine l = true)
    (res : List Segment) (col : Str) (lvl : Nat) :
    scanLines ls ⟨res, col, lvl, Mode.code⟩ =
      some ⟨res, col ++ (ls.map (stripLine lvl)).flatten, lvl, Mode.code⟩ := by
  induction ls generalizing col with
  | nil => simp [scanLines]
  | cons l ls ih =>
    rw [scanLines, scanLine_code_mode res col lvl l (h l (by simp))]
    simp only [Option.some_bind]
    rw [ih (fun x hx => h x (List.mem_cons_of_mem _ hx))]
    simp [List.append_assoc]

lemma scanLines_append (a b : List Str) (st : ScanState) :
    scanLines (a ++ b) st = (scanLines a st).bind (scanLines b) := by
  induction a generalizing st with
  | nil => simp [scanLines]
  | cons l ls ih =>
    simp only [List.cons_append, scanLines]
    cases scanLine st l with
    | none => simp
    | some st2 => simp [ih]

lemma execStmts_append (a b : List PyStmt) (st : EState) :
    execStmts (a ++ b) st = (execStmts a st).bind (execStmts b) := by
  induction a generalizing st with
  | nil => simp [execStmts, Except.bind]
  | cons s rest ih =>
    simp only [List.cons_append, execStmts]
    cases execStmt s st with
    | error e => simp [Except.bind]
    | ok st2 => simp [Except.bind, ih]

lemma loopFrom_output_length (x : String) (f : EState → Except String EState)
    (hf : ∀ st st2, f st = Except.ok st2 → st2.output.length = st.output.length) :
    ∀ (n k : Nat) (st st2 : EState), loopFrom x f k n st = Except.ok st2 →
      st2.output.length = st.output.length := by
  intro n
  induction n with
  | zero =>
    intro k st st2 h
    rw [loopFrom] at h
    cases h
    rfl
  | succ n ih =>
    intro k st st2 h
    rw [loopFrom] at h
    cases h1 : f { st with env := (x, Value.int (Int.ofNat k)) :: st.env } with
    | error e => rw [h1] at h; simp [Except.bind] at h
    | ok stm =>
      rw [h1] at h
      simp only [Except.bind] at h
      have e1 := hf _ _ h1
      have e2 := ih (k + 1) stm st2 h
      rw [e2, e1]

lemma execStmt_output_length : ∀ (s : PyStmt) (st st2 : EState),
    execStmt s st = Except.ok st2 → st2.output.length = st.output.length := by
  intro s
  induction s with
  | assign x e =>
    intro st st2 h
    simp only [execStmt] at h
    cases he : evalExpr st.env e with
    | error e2 => rw [he] at h; simp [Except.map] at h
    | ok v => rw [he] at h; simp only [Except.map] at h; cases h; rfl
  | write e =>
    intro st st2 h
    simp only [execStmt] at h
    cases he : evalExpr st.env e with
    | error e2 => rw [he] at h; simp [Except.bind] at h
    | ok v =>
      rw [he] at h
      simp only [Except.bind] at h
      by_cases hlt : st.sec < st.output.length
      · simp only [hlt, if_true] at h
        cases h
        simp [List.length_set]
      · simp [hlt] at h
  | seq a b iha ihb =>
    intro st st2 h
    simp only [execStmt] at h
    cases h1 : execStmt a st with
    | error e2 => rw [h1] at h; simp [Except.bind] at h
    | ok stm =>
      rw [h1] at h
      simp only [Except.bind] at h
      rw [ihb _ _ h, iha _ _ h1]
  | forRange x n body ihbody =>
    intro st st2 h
    simp only [execStmt] at h
    exact loopFrom_output_length x (execStmt body) ihbody n 0 st st2 h
  | raiseExc m => intro st st2 h; simp only [execStmt] at h; simp at h
  | setSec i => intro st st2 h; simp only [execStmt] at h; cases h; rfl

lemma execStmts_output_length : ∀ (p : List PyStmt) (st st2 : EState),
    execStmts p st = Except.ok st2 → st2.output.length = st.output.length := by
  intro p
  induction p with
  | nil => intro st st2 h; cases h; rfl
  | cons s rest ih =>
    intro st st2 h
    rw [execStmts] at h
    cases h1 : execStmt s st with
    | error e => rw [h1] at h; simp [Except.bind] at h
    | ok stm =>
      rw [h1] at h
      simp only [Except.bind] at h
      rw [ih _ _ h, execStmt_output_length _ _ _ h1]

lemma execStmt_write_spec (e : Expr) (st st2 : EState)
    (h : execStmt (PyStmt.write e) st = Except.ok st2) :
    st2.sec = st.sec ∧ st2.env = st.env ∧
      ∃ v, evalExpr st.env e = Except.ok v ∧
        st2.output = st.output.set st.sec (st.output.getD st.sec [] ++ pyStr v) := by
  simp only [execStmt] at h
  cases he : evalExpr st.env e with
  | error e2 => rw [he] at h; simp [Except.bind] at h
  | ok v =>
    rw [he] at h
    simp only [Except.bind] at h
    by_cases hlt : st.sec < st.output.length
    · simp only [hlt, if_true] at h
      cases h
      exact ⟨rfl, rfl, v, rfl, rfl⟩
    · simp [hlt] at h

lemma assembleFrom_structure (progs : List (List PyStmt)) : ∀ i : Nat,
    assembleFrom i progs =
      (((List.range' i progs.length).zip progs).map
        (fun q => PyStmt.setSec q.1 :: q.2)).flatten := by
  induction progs with
  | nil => intro i; simp [assembleFrom]
  | cons p ps ih =>
    intro i
    rw [assembleFrom, List.length_cons, List.range'_succ]
    simp only [List.zip_cons_cons, List.map_cons, List.flatten_cons]
    rw [ih (i + 1)]
    simp

lemma execStmts_assembleFrom (progs : List (List PyStmt)) : ∀ (i : Nat) (st : EState),
    execStmts (assembleFrom i progs) st = runSections i progs st := by
  induction progs with
  | nil => intro i st; rfl
  | cons p ps ih =>
    intro i st
    rw [assembleFrom, execStmts]
    have hsec : execStmt (PyStmt.setSec i) st = Except.ok { st with sec := i } := rfl
    rw [hsec]
    simp only [Except.bind]
    rw [execStmts_append]
    rw [runSections]
    cases h : execStmts p { st with sec := i } with
    | error e => simp [Except.bind]
    | ok stm => simp [Except.bind, ih]

lemma findSub_isSome_of_isPrefixOf (pat s : Str) (h : pat.isPrefixOf s = true) :
    (findSub pat s).isSome = true := by
  cases s <;> simp [findSub, h]

lemma findSub_append_isSome (pat a t : Str) (h : (findSub pat t).isSome = true) :
    (findSub pat (a ++ t)).isSome = true := by
  induction a with
  | nil => simpa using h
  | cons c cs ih =>
    rw [List.cons_append, findSub]
    cases hp : pat.isPrefixOf (c :: (cs ++ t)) <;> simp [hp, Option.isSome_map, ih]

lemma find_indentation_level_isSome (line : Str) (h : isBlockOpen line = true) :
    (find_indentation_level line).isSome = true := by
  have h1 : multiline_delimiter_open.isPrefixOf (line.dropWhile isPySpace) = true := by
    simp only [isBlockOpen, Bool.and_eq_true] at h
    exact h.1
  have h2 := findSub_isSome_of_isPrefixOf _ _ h1
  have h3 := findSub_append_isSome multiline_delimiter_open (line.takeWhile isPySpace)
    (line.dropWhile isPySpace) h2
  rw [List.takeWhile_append_dropWhile] at h3
  exact h3

lemma scanLine_isSome (st : ScanState) (l : Str) : (scanLine st l).isSome = true := by
  rw [scanLine]
  cases hbo : isBlockOpen l with
  | true =>
    simp only [if_true]
    have := find_indentation_level_isSome l hbo
    cases hf : find_indentation_level l with
    | none => rw [hf] at this; simp at this
    | some lvl => simp
  | false =>
    simp only [Bool.false_eq_true, if_false]
    cases hbc : isBlockClose l with
    | true => simp
    | false =>
      simp only [Bool.false_eq_true, if_false]
      rcases findSub inline_delimiter_open l with _ | i <;>
        rcases findSub inline_delimiter_close l with _ | j <;>
          cases st.mode <;> simp

lemma scanLines_isSome (ls : List Str) : ∀ st : ScanState, (scanLines ls st).isSome = true := by
  induction ls with
  | nil => intro st; simp [scanLines]
  | cons l rest ih =>
    intro st
    rw [scanLines]
    cases hs : scanLine st l with
    | none => have := scanLine_isSome st l; rw [hs] at this; simp at this
    | some st2 => simpa using ih st2

lemma findSub_spec (pat : Str) : ∀ (s : Str) (k : Nat), findSub pat s = some k →
    pat.isPrefixOf (s.drop k) = true ∧ ∀ m, m < k → pat.isPrefixOf (s.drop m) = false := by
  intro s
  induction s with
  | nil =>
    intro k h
    rw [findSub] at h
    by_cases hp : pat.isPrefixOf ([] : Str) = true
    · rw [if_pos hp] at h
      cases h
      exact ⟨hp, fun m hm => absurd hm (by omega)⟩
    · rw [if_neg hp] at h
      cases h
  | cons c rest ih =>
    intro k h
    rw [findSub] at h
    cases hp : pat.isPrefixOf (c :: rest) with
    | true =>
      rw [if_pos hp] at h
      cases h
      exact ⟨by simpa using hp, fun m hm => absurd hm (by omega)⟩
    | false =>
      rw [if_neg (by simp [hp])] at h
      rcases Option.map_eq_some'.mp h with ⟨k0, hk0, rfl⟩
      obtain ⟨ha, hb⟩ := ih k0 hk0
      refine ⟨by simpa [List.drop_succ_cons] using ha, ?_⟩
      intro m hm
      cases m with
      | zero => simpa using hp
      | succ m0 =>
        rw [List.drop_succ_cons]
        exact hb m0 (by omega)

lemma isBlockOpen_eq_false_of_close (line : Str) (h : isBlockClose line = true) :
    isBlockOpen line = false := by
  simp only [isBlockClose, Bool.and_eq_true] at h
  obtain ⟨h1, _⟩ := h
  rw [show multiline_delimiter_close = '<' :: '/' :: chars "python>" from rfl,
    List.isPrefixOf_iff_prefix] at h1
  obtain ⟨r2, e2⟩ := h1
  suffices hs : multiline_delimiter_open.isPrefixOf (line.dropWhile isPySpace) = false by
    simp [isBlockOpen, hs]
  cases hc : multiline_delimiter_open.isPrefixOf (line.dropWhile isPySpace) with
  | false => rfl
  | true =>
    exfalso
    rw [show multiline_delimiter_open = '<' :: 'p' :: chars "ython>" from rfl,
      List.isPrefixOf_iff_prefix] at hc
    obtain ⟨r1, e1⟩ := hc
    rw [← e2] at e1
    simp only [List.cons_append] at e1
    injection e1 with _ e1a
    injection e1a with e1b _
    exact absurd e1b (by decide)

/-- C1: for every document whose lines match no block tag pattern and
contain no inline tag pair, the scanner emits a single plain segment
equal to the concatenation of the lines, and rendering returns that
concatenation unchanged, for any host parse step. -/
theorem C1_tag_free_identity (lines : List Str) (decode : Str → List PyStmt)
    (h : ∀ l ∈ lines, plainLine l = true) :
    process_python_tags lines = some [Segment.lit lines.flatten] ∧
      pypage lines decode = Except.ok lines.flatten := by
  have hscan : scanLines lines ⟨[], [], 0, Mode.plain⟩ =
      some ⟨[], lines.flatten, 0, Mode.plain⟩ := by
    simpa using scanLines_plain_acc lines h [] [] 0
  have hpt : process_python_tags lines = some [Segment.lit lines.flatten] := by
    simp [process_python_tags, hscan]
  refine ⟨hpt, ?_⟩
  have hext : extractCodeObjs [Segment.lit lines.flatten] decode = [] := rfl
  have hexec : execPythonCode [] = Except.ok ([] : List Str) := rfl
  simp [pypage, hpt, hext, hexec, assembleOutput]

/-- Witness for C1 at a concrete two-line tag-free document. -/
theorem C1_tag_free_identity_witness :
    (∀ l ∈ [chars "hello\n", chars "world\n"], plainLine l = true) ∧
      (process_python_tags [chars "hello\n", chars "world\n"] =
          some [Segment.lit ([chars "hello\n", chars "world\n"] : List Str).flatten] ∧
        pypage [chars "hello\n", chars "world\n"] (fun _ => []) =
          Except.ok ([chars "hello\n", chars "world\n"] : List Str).flatten) :=
  ⟨by decide, C1_tag_free_identity [chars "hello\n", chars "world\n"] (fun _ => []) (by decide)⟩

/-- C2: the assembled shared program runs the sections sequentially,
each section starting from the full state, namespace included, that
the previous section ended with; and on the concrete document whose
first block defines a variable read by a later inline tag, rendering
places the variable's value at the second tag's position. -/
theorem C2_shared_scope :
    (∀ (progs : List (List PyStmt)) (i : Nat) (st : EState),
        execStmts (assembleFrom i progs) st = runSections i progs st) ∧
      pypage docC2 decodeEx = Except.ok (chars "\nmid\nsay A!\ntail\n") :=
  ⟨fun progs i st => execStmts_assembleFrom progs i st, rfl⟩

/-- Counterexample to C3: the concrete document renders to a single
line holding the three written digits, not to three reindented lines
joined by newlines. -/
theorem C3_counterexample :
    pypage docC3 decodeEx = Except.ok (chars "    012\n") ∧
      ¬ pypage docC3 decodeEx = Except.ok (chars "    0\n    1\n    2\n") := by
  refine ⟨rfl, fun hc => ?_⟩
  rw [show pypage docC3 decodeEx = Except.ok (chars "    012\n") from rfl,
    Except.ok.injEq] at hc
  exact absurd hc (by decide)

/-- C3 as amended: the block tag opening at column 4 whose body loops
three writes is replaced by one line of 4 leading spaces followed by
the three digits, the write primitive emitting no newlines. -/
theorem C3_block_single_line :
    pypage docC3 decodeEx = Except.ok (chars "    012\n") := rfl

/-- C4: whenever evaluation of the shared program built from the
scanned document raises, the render returns exactly that error, with
no output text. -/
theorem C4_error_propagation (lines : List Str) (decode : Str → List PyStmt)
    (segs : List Segment) (e : String)
    (hscan : process_python_tags lines = some segs)
    (hexec : execPythonCode (extractCodeObjs segs decode) = Except.error e) :
    pypage lines decode = Except.error e := by
  simp [pypage, hscan, hexec]

/-- Witness for C4 at a concrete document whose inline code raises. -/
theorem C4_error_propagation_witness :
    process_python_tags docC4 =
        some [Segment.lit (chars "a"), Segment.code (chars "raise RuntimeError") 0,
              Segment.lit (chars "b\n")] ∧
      execPythonCode (extractCodeObjs
          [Segment.lit (chars "a"), Segment.code (chars "raise RuntimeError") 0,
           Segment.lit (chars "b\n")] decodeEx) = Except.error "RuntimeError" ∧
      pypage docC4 decodeEx = Except.error "RuntimeError" :=
  ⟨rfl, rfl,
    C4_error_propagation docC4 decodeEx
      [Segment.lit (chars "a"), Segment.code (chars "raise RuntimeError") 0,
       Segment.lit (chars "b\n")] "RuntimeError" rfl rfl⟩

/-- C5: evaluation never changes the number of output buffers, so the
engine returns exactly one buffer per code object; the write primitive
leaves the cursor and namespace alone and appends the string form of
its argument to the buffer addressed by the current cursor; and the
assembled program places before the code of the segment at position k
a marker setting the cursor to ordinal i + k, the ordinals being the
consecutive positions in scanning order. -/
theorem C5_buffer_invariants :
    (∀ (p : List PyStmt) (st st2 : EState),
        execStmts p st = Except.ok st2 → st2.output.length = st.output.length) ∧
      (∀ (cos : List (List PyStmt × Nat)) (outs : List Str),
          execPythonCode cos = Except.ok outs → outs.length = cos.length) ∧
      (∀ (e : Expr) (st st2 : EState),
          execStmt (PyStmt.write e) st = Except.ok st2 →
            st2.sec = st.sec ∧ st2.env = st.env ∧
              ∃ v, evalExpr st.env e = Except.ok v ∧
                st2.output = st.output.set st.sec (st.output.getD st.sec [] ++ pyStr v)) ∧
      (∀ (progs : List (List PyStmt)) (i : Nat),
          assembleFrom i progs =
            (((List.range' i progs.length).zip progs).map
              (fun q => PyStmt.setSec q.1 :: q.2)).flatten) := by
  refine ⟨execStmts_output_length, ?_, execStmt_write_spec, fun progs i => assembleFrom_structure progs i⟩
  intro cos outs h
  rw [execPythonCode] at h
  cases hr : execStmts (assembleFrom 0 (cos.map Prod.fst))
      ⟨[], 0, List.replicate cos.length []⟩ with
  | error e => rw [hr] at h; cases h
  | ok st =>
    rw [hr] at h
    cases h
    have hlen := execStmts_output_length _ _ _ hr
    simp only [List.length_replicate] at hlen
    simp [List.length_zipWith, hlen]

/-- Witness for C5: concrete runs exercising the three hypothesised
parts of the invariant. -/
theorem C5_buffer_invariants_witness :
    (execStmts [PyStmt.setSec 0, PyStmt.write (Expr.lit (Value.str (chars "ab")))]
          ⟨[], 0, [[]]⟩ = Except.ok ⟨[], 0, [chars "ab"]⟩ ∧
        (⟨[], 0, [chars "ab"]⟩ : EState).output.length =
          (⟨[], 0, [[]]⟩ : EState).output.length) ∧
      (execPythonCode [([PyStmt.write (Expr.lit (Value.str (chars "x")))], 2)] =
          Except.ok [chars "  x"] ∧
        ([chars "  x"] : List Str).length =
          ([([PyStmt.write (Expr.lit (Value.str (chars "x")))], 2)] :
            List (List PyStmt × Nat)).length) ∧
      (execStmt (PyStmt.write (Expr.lit (Value.int 5))) ⟨[], 0, [[]]⟩ =
          Except.ok ⟨[], 0, [chars "5"]⟩ ∧
        (⟨[], 0, [chars "5"]⟩ : EState).sec = (⟨[], 0, [[]]⟩ : EState).sec ∧
        (⟨[], 0, [chars "5"]⟩ : EState).env = (⟨[], 0, [[]]⟩ : EState).env ∧
        ∃ v, evalExpr (⟨[], 0, [[]]⟩ : EState).env (Expr.lit (Value.int 5)) = Except.ok v ∧
          (⟨[], 0, [chars "5"]⟩ : EState).output =
            (⟨[], 0, [[]]⟩ : EState).output.set (⟨[], 0, [[]]⟩ : EState).sec
              ((⟨[], 0, [[]]⟩ : EState).output.getD (⟨[], 0, [[]]⟩ : EState).sec []
                ++ pyStr v)) :=
  ⟨⟨rfl,
      C5_buffer_invariants.1
        [PyStmt.setSec 0, PyStmt.write (Expr.lit (Value.str (chars "ab")))]
        ⟨[], 0, [[]]⟩ ⟨[], 0, [chars "ab"]⟩ rfl⟩,
    ⟨rfl,
      C5_buffer_invariants.2.1 [([PyStmt.write (Expr.lit (Value.str (chars "x")))], 2)]
        [chars "  x"] rfl⟩,
    ⟨rfl,
      by
        have hw := C5_buffer_invariants.2.2.1 (Expr.lit (Value.int 5))
          ⟨[], 0, [[]]⟩ ⟨[], 0, [chars "5"]⟩ rfl
        exact hw⟩⟩

/-- C6: a document whose block-open line is never followed by a close
line scans without failing; at end of input the accumulated remainder,
the body lines as the code mode collected them, is flushed as a final
plain segment, and rendering emits it verbatim instead of evaluating
it. -/
theorem C6_unterminated_block (pre body : List Str) (opLine : Str)
    (decode : Str → List PyStmt)
    (hpre : ∀ l ∈ pre, plainLine l = true)
    (hop : isBlockOpen opLine = true)
    (hbody : ∀ l ∈ body, plainLine l = true) :
    ∃ lvl, find_indentation_level opLine = some lvl ∧
      process_python_tags (pre ++ opLine :: body) =
        some [Segment.lit pre.flatten,
              Segment.lit ((body.map (stripLine lvl)).flatten)] ∧
      pypage (pre ++ opLine :: body) decode =
        Except.ok (pre.flatten ++ (body.map (stripLine lvl)).flatten) := by
  obtain ⟨lvl, hlvl⟩ := Option.isSome_iff_exists.mp (find_indentation_level_isSome opLine hop)
  refine ⟨lvl, hlvl, ?_⟩
  have hpre2 : scanLines pre ⟨[], [], 0, Mode.plain⟩ =
      some ⟨[], pre.flatten, 0, Mode.plain⟩ := by
    simpa using scanLines_plain_acc pre hpre [] [] 0
  have hopline : scanLine ⟨[], pre.flatten, 0, Mode.plain⟩ opLine =
      some ⟨[Segment.lit pre.flatten], [], lvl, Mode.code⟩ := by
    simp [scanLine, hop, hlvl]
  have hbody2 : scanLines body ⟨[Segment.lit pre.flatten], [], lvl, Mode.code⟩ =
      some ⟨[Segment.lit pre.flatten], (body.map (stripLine lvl)).flatten, lvl, Mode.code⟩ := by
    simpa using scanLines_code_acc body hbody [Segment.lit pre.flatten] [] lvl
  have hscan : scanLines (pre ++ opLine :: body) ⟨[], [], 0, Mode.plain⟩ =
      some ⟨[Segment.lit pre.flatten], (body.map (stripLine lvl)).flatten, lvl, Mode.code⟩ := by
    rw [scanLines_append, hpre2]
    simp only [Option.some_bind]
    rw [scanLines, hopline]
    simp only [Option.some_bind]
    exact hbody2
  have hpt : process_python_tags (pre ++ opLine :: body) =
      some [Segment.lit pre.flatten, Segment.lit ((body.map (stripLine lvl)).flatten)] := by
    simp [process_python_tags, hscan]
  refine ⟨hpt, ?_⟩
  have hext : extractCodeObjs
      [Segment.lit pre.flatten, Segment.lit ((body.map (stripLine lvl)).flatten)] decode =
      [] := rfl
  have hexec : execPythonCode [] = Except.ok ([] : List Str) := rfl
  simp [pypage, hpt, hext, hexec, assembleOutput]

/-- Witness for C6 at a concrete document with one plain line, an
indented block-open line and two body lines never closed. -/
theorem C6_unterminated_block_witness :
    (∀ l ∈ [chars "pre\n"], plainLine l = true) ∧
      isBlockOpen (chars "  <python>\n") = true ∧
      (∀ l ∈ [chars "  zz\n", chars "z\n"], plainLine l = true) ∧
      ∃ lvl, find_indentation_level (chars "  <python>\n") = some lvl ∧
        process_python_tags ([chars "pre\n"] ++ chars "  <python>\n" :: [chars "  zz\n", chars "z\n"]) =
          some [Segment.lit ([chars "pre\n"] : List Str).flatten,
                Segment.lit ((([chars "  zz\n", chars "z\n"] : List Str).map (stripLine lvl)).flatten)] ∧
        pypage ([chars "pre\n"] ++ chars "  <python>\n" :: [chars "  zz\n", chars "z\n"]) (fun _ => []) =
          Except.ok (([chars "pre\n"] : List Str).flatten ++
            (([chars "  zz\n", chars "z\n"] : List Str).map (stripLine lvl)).flatten) :=
  ⟨by decide, by decide, by decide,
    C6_unterminated_block [chars "pre\n"] [chars "  zz\n", chars "z\n"]
      (chars "  <python>\n") (fun _ => []) (by decide) (by decide) (by decide)⟩

/-- C7: on a line that is no block delimiter, the scanner cuts at the
first occurrence of the inline opening delimiter and the first
occurrence of the inline closing delimiter, found by the searches; the
interior becomes a code segment at indentation level 0 and everything
after the first closing delimiter, later pairs included, stays as
plain text in the trailing segment.  The searches are first
occurrences: no earlier position carries the delimiter. -/
theorem C7_first_inline_pair_only :
    (∀ (line : Str) (i j : Nat),
        isBlockOpen line = false → isBlockClose line = false →
        findSub inline_delimiter_open line = some i →
        findSub inline_delimiter_close line = some j →
        process_python_tags [line] =
          some [Segment.lit (line.take i),
                Segment.code ((line.drop (i + 4)).take (j - (i + 4))) 0,
                Segment.lit (line.drop (j + 5))]) ∧
      (∀ (pat s : Str) (k : Nat), findSub pat s = some k →
          pat.isPrefixOf (s.drop k) = true ∧
            ∀ m, m < k → pat.isPrefixOf (s.drop m) = false) := by
  refine ⟨?_, fun pat s k h => findSub_spec pat s k h⟩
  intro line i j hbo hbc hfo hfc
  rw [process_python_tags, scanLines]
  have hline : scanLine ⟨[], [], 0, Mode.plain⟩ line =
      some ⟨[Segment.lit (line.take i),
             Segment.code ((line.drop (i + 4)).take (j - (i + 4))) 0],
            line.drop (j + 5), 0, Mode.plain⟩ := by
    simp [scanLine, hbo, hbc, hfo, hfc]
  rw [hline]
  simp [scanLines]

/-- Witness for C7 at a concrete line carrying two inline pairs: only
the first becomes code, the second stays verbatim inside the final
plain segment. -/
theorem C7_first_inline_pair_only_witness :
    (isBlockOpen (chars "a<py>X</py>b<py>Y</py>c\n") = false ∧
        isBlockClose (chars "a<py>X</py>b<py>Y</py>c\n") = false ∧
        findSub inline_delimiter_open (chars "a<py>X</py>b<py>Y</py>c\n") = some 1 ∧
        findSub inline_delimiter_close (chars "a<py>X</py>b<py>Y</py>c\n") = some 6) ∧
      process_python_tags [chars "a<py>X</py>b<py>Y</py>c\n"] =
        some [Segment.lit ((chars "a<py>X</py>b<py>Y</py>c\n").take 1),
              Segment.code (((chars "a<py>X</py>b<py>Y</py>c\n").drop (1 + 4)).take (6 - (1 + 4))) 0,
              Segment.lit ((chars "a<py>X</py>b<py>Y</py>c\n").drop (6 + 5))] :=
  ⟨⟨by decide, by decide, by decide, by decide⟩,
    C7_first_inline_pair_only.1 (chars "a<py>X</py>b<py>Y</py>c\n") 1 6
      (by decide) (by decide) (by decide) (by decide)⟩

/-- C8: a line matching the block-open pattern always contains the
bare opening delimiter, so the column lookup's assertion holds there;
and the scanner as a whole never fails on any input document. -/
theorem C8_assert_unreachable :
    (∀ line : Str, isBlockOpen line = true →
        (find_indentation_level line).isSome = true) ∧
      ∀ lines : List Str, (process_python_tags lines).isSome = true := by
  refine ⟨fun line h => find_indentation_level_isSome line h, fun lines => ?_⟩
  simp only [process_python_tags, Option.isSome_map']
  exact scanLines_isSome lines _

/-- Witness for C8 at a concrete indented block-open line. -/
theorem C8_assert_unreachable_witness :
    isBlockOpen (chars "  <python>\n") = true ∧
      (find_indentation_level (chars "  <python>\n")).isSome = true :=
  ⟨by decide, C8_assert_unreachable.1 (chars "  <python>\n") (by decide)⟩

/-- C9: a block-close line reached with no unmatched block-open before
it does not fail the scan and leaves no trace of itself as text; the
plain text accumulated before it is emitted as a code segment at
indentation level 0, which the render's filter hands to the execution
engine as a code object. -/
theorem C9_close_without_open (pre rest : List Str) (clLine : Str)
    (decode : Str → List PyStmt)
    (hpre : ∀ l ∈ pre, plainLine l = true)
    (hcl : isBlockClose clLine = true)
    (hrest : ∀ l ∈ rest, plainLine l = true) :
    process_python_tags (pre ++ clLine :: rest) =
      some [Segment.code pre.flatten 0, Segment.lit ('\n' :: rest.flatten)] ∧
      extractCodeObjs [Segment.code pre.flatten 0, Segment.lit ('\n' :: rest.flatten)] decode =
        [(decode pre.flatten, 0)] := by
  have hbo := isBlockOpen_eq_false_of_close clLine hcl
  have hpre2 : scanLines pre ⟨[], [], 0, Mode.plain⟩ =
      some ⟨[], pre.flatten, 0, Mode.plain⟩ := by
    simpa using scanLines_plain_acc pre hpre [] [] 0
  have hclline : scanLine ⟨[], pre.flatten, 0, Mode.plain⟩ clLine =
      some ⟨[Segment.code pre.flatten 0], ['\n'], 0, Mode.plain⟩ := by
    simp [scanLine, hbo, hcl]
  have hrest2 : scanLines rest ⟨[Segment.code pre.flatten 0], ['\n'], 0, Mode.plain⟩ =
      some ⟨[Segment.code pre.flatten 0], '\n' :: rest.flatten, 0, Mode.plain⟩ := by
    simpa using scanLines_plain_acc rest hrest [Segment.code pre.flatten 0] ['\n'] 0
  have hscan : scanLines (pre ++ clLine :: rest) ⟨[], [], 0, Mode.plain⟩ =
      some ⟨[Segment.code pre.flatten 0], '\n' :: rest.flatten, 0, Mode.plain⟩ := by
    rw [scanLines_append, hpre2]
    simp only [Option.some_bind]
    rw [scanLines, hclline]
    simp only [Option.some_bind]
    exact hrest2
  constructor
  · simp [process_python_tags, hscan]
  · rfl

/-- Witness for C9 at a concrete document with one plain line before
the close line and one after. -/
theorem C9_close_without_open_witness :
    (∀ l ∈ [chars "p\n"], plainLine l = true) ∧
      isBlockClose (chars "</python>\n") = true ∧
      (∀ l ∈ [chars "r\n"], plainLine l = true) ∧
      (process_python_tags ([chars "p\n"] ++ chars "</python>\n" :: [chars "r\n"]) =
          some [Segment.code ([chars "p\n"] : List Str).flatten 0,
                Segment.lit ('\n' :: ([chars "r\n"] : List Str).flatten)] ∧
        extractCodeObjs
            [Segment.code ([chars "p\n"] : List Str).flatten 0,
             Segment.lit ('\n' :: ([chars "r\n"] : List Str).flatten)] (fun _ => []) =
          [((fun _ => ([] : List PyStmt)) ([chars "p\n"] : List Str).flatten, 0)]) :=
  ⟨by decide, by decide, by decide,
    C9_close_without_open [chars "p\n"] [chars "r\n"] (chars "</python>\n")
      (fun _ => []) (by decide) (by decide) (by decide)⟩

/-- C10: re-indenting an empty captured buffer yields exactly the
segment's indentation level in spaces, the empty string only at level
0; concretely, a column-2 block whose script writes nothing renders as
two spaces on the line the block occupied, and an inline tag whose
script writes nothing renders as the empty string. -/
theorem C10_empty_buffer_reindent :
    (∀ id_level : Nat, reindent id_level [] = List.replicate id_level ' ') ∧
      reindent 0 [] = [] ∧
      pypage docC10b decodeEx = Except.ok (chars "A\n  \nB\n") ∧
      pypage docC10i decodeEx = Except.ok (chars "cd\n") := by
  refine ⟨?_, rfl, rfl, rfl⟩
  intro id_level
  simp [reindent, splitNl, List.intercalate]
